import Mathlib

/-!
# amqp-purge: the scan loop, the dispatch worker and the webhook handler

A shallow embedding of `main.go`.  The program talks to three collaborators
that are not part of it (the AMQP client, `encoding/json` and `jsonpath`,
the HTTP server).  Their answers are inputs of the embedding:

* the JSON decoder and the JSON-path reader are the two functions of a `Codec`;
* whether `Ack` / `Nack` / `conn.Channel()` / ... return an error is recorded in
  the `Delivery` and in the `Connection`;
* the `select` of the scan loop receives a list of `Event`s, in the order in
  which the Go runtime hands them over (a delivery from `msgs`, or `timer.C`).

Everything the program itself decides (which branch is taken, what is
acknowledged or requeued, when the loop is left) is computed by the
definitions below.
-/

namespace AmqpPurge

/-! ## Data model -/

/-- The dynamic values `json.Unmarshal` stores into an `interface{}` and
`jsonpath.Read` hands back.  A `float64` is carried by its bit pattern: the
program never computes with it. -/
inductive Value where
  | null
  | bool (b : Bool)
  | float64 (bits : Nat)
  | string (s : String)
  | array (xs : List Value)
  | object (kvs : List (String × Value))

/-- The dynamic type test behind `unmarshaled.(string)`: `some s` exactly when
the value holds a Go `string`. -/
def Value.asString : Value → Option String
  | .string s => some s
  | _ => none

/-- The two library calls of the scan loop: `json.Unmarshal(d.Body, &field)`
and `jsonpath.Read(field, jsonpathExpr)`; `.error` is a non-nil `err`. -/
structure Codec where
  Unmarshal : List UInt8 → Except String Value
  Read : Value → String → Except String Value

/-- An `amqp.Delivery`: tag and payload, and what its acknowledger answers
(`ackErr`: `d.Ack` returns a non-nil error; `nackErr`: `d.Nack` does). -/
structure Delivery where
  DeliveryTag : Nat
  Body : List UInt8
  ackErr : Bool
  nackErr : Bool
  deriving DecidableEq, Repr

/-- What one turn of the `select` in the scan loop receives. -/
inductive Event where
  | msgs (d : Delivery)
  | timerC
  deriving DecidableEq, Repr

/-- The acknowledgement calls the scan makes on deliveries.
`Ack tag multiple` is `d.Ack(multiple)`, `Nack tag multiple requeue` is
`d.Nack(multiple, requeue)`. -/
inductive Action where
  | Ack (tag : Nat) (multiple : Bool)
  | Nack (tag : Nat) (multiple requeue : Bool)
  deriving DecidableEq, Repr

/-- True on `Ack` calls. -/
def Action.isAck : Action → Bool
  | .Ack _ _ => true
  | .Nack _ _ _ => false

/-- How a call of `Purge` stands when the modelled events are used up.
* `done`: the `return` after the "Done" log (a value seen before);
* `timeout`: the `return` after "Done (timeout)";
* `aborted`: `break L` after a payload that does not decode or has no field;
* `fatal`: `failOnError` saw an error, `log.Fatalf` ends the process;
* `panicked`: the type assertion `unmarshaled.(string)` failed;
* `awaiting`: the loop is still blocked in `select` (no event left). -/
inductive Outcome where
  | done
  | timeout
  | aborted
  | fatal
  | panicked
  | awaiting
  deriving DecidableEq, Repr

/-- The result of a scan: how it ended, the `Ack`/`Nack` calls in order, the
events it never received, and the keys of the `dones` map (latest first). -/
structure Result where
  outcome : Outcome
  trace : List Action
  rest : List Event
  dones : List String
  deriving DecidableEq, Repr

/-- Put calls made earlier in front of the trace of a result. -/
def Result.prepend (t : List Action) (r : Result) : Result :=
  { r with trace := t ++ r.trace }

/-- The answers of the AMQP connection to the three set-up calls of `Purge`
(`true`: the call returns an error). -/
structure Connection where
  channelErr : Bool
  queueDeclareErr : Bool
  consumeErr : Bool
  deriving DecidableEq, Repr

/-! ## The scan loop -/

/-- The labelled loop `L` of `Purge` (lines 117-173), run from a `dones` map
with the given keys on the given events. -/
def scan (lib : Codec) (jsonpathExpr val : String) : List String → List Event → Result
  | dones, [] => ⟨.awaiting, [], [], dones⟩
  | dones, .timerC :: rest => ⟨.timeout, [], rest, dones⟩
  | dones, .msgs d :: rest =>
    match lib.Unmarshal d.Body with
    | .error _ =>
      if d.nackErr then ⟨.fatal, [.Nack d.DeliveryTag false true], rest, dones⟩
      else ⟨.aborted, [.Nack d.DeliveryTag false true], rest, dones⟩
    | .ok field =>
      match lib.Read field jsonpathExpr with
      | .error _ =>
        if d.nackErr then ⟨.fatal, [.Nack d.DeliveryTag false true], rest, dones⟩
        else ⟨.aborted, [.Nack d.DeliveryTag false true], rest, dones⟩
      | .ok unmarshaled =>
        match unmarshaled.asString with
        | none => ⟨.panicked, [], rest, dones⟩
        | some m =>
          if m ∈ dones then ⟨.done, [], rest, dones⟩
          else if m = val then
            if d.ackErr then ⟨.fatal, [.Ack d.DeliveryTag false], rest, m :: dones⟩
            else (scan lib jsonpathExpr val (m :: dones) rest).prepend [.Ack d.DeliveryTag false]
          else
            if d.nackErr then ⟨.fatal, [.Nack d.DeliveryTag false true], rest, m :: dones⟩
            else (scan lib jsonpathExpr val (m :: dones) rest).prepend [.Nack d.DeliveryTag false true]

/-- `Purge(conn, queueName, val)`: open the channel, declare the queue, start
consuming (each guarded by `failOnError`), then run the loop on an empty
`dones` map. -/
def Purge (lib : Codec) (jsonpathExpr : String) (conn : Connection) (queueName val : String)
    (events : List Event) : Result :=
  if conn.channelErr then ⟨.fatal, [], events, []⟩
  else if conn.queueDeclareErr then ⟨.fatal, [], events, []⟩
  else if conn.consumeErr then ⟨.fatal, [], events, []⟩
  else
    let _ := queueName
    scan lib jsonpathExpr val [] events

/-! ## The dispatch worker -/

/-- What one turn of the `select` in the worker goroutine of `main` receives:
a close notification, or an id from `forever` (with what the broker and the
timer do during the scan it starts). -/
inductive WorkerEvent where
  | notify
  | forever (id : String) (conn : Connection) (events : List Event)
  deriving DecidableEq, Repr

/-- Where the worker goroutine stands when the modelled events are used up. -/
inductive WorkerStatus where
  | idle
  | exited
  | crashed
  | scanning
  deriving DecidableEq, Repr

/-- The scans the worker started, in order, each with its id and its result. -/
structure WorkerResult where
  status : WorkerStatus
  scans : List (String × Result)
  deriving DecidableEq, Repr

/-- The goroutine of `main` (lines 249-263): `os.Exit(1)` on a close
notification, `Purge(conn, queueName, id)` on an id; the next `select` is
reached only when `Purge` returns. -/
def worker (lib : Codec) (jsonpathExpr queueName : String) : List WorkerEvent → WorkerResult
  | [] => ⟨.idle, []⟩
  | .notify :: _ => ⟨.exited, []⟩
  | .forever id conn events :: later =>
    let r := Purge lib jsonpathExpr conn queueName id events
    match r.outcome with
    | .fatal => ⟨.exited, [(id, r)]⟩
    | .panicked => ⟨.crashed, [(id, r)]⟩
    | .awaiting => ⟨.scanning, [(id, r)]⟩
    | _ =>
      let w := worker lib jsonpathExpr queueName later
      ⟨w.status, (id, r) :: w.scans⟩

/-! ## The webhook handler -/

/-- The struct validated by the handler: `PurgeId` carries the tags
`required,alphanum`. -/
structure PurgeArg where
  PurgeId : String
  deriving DecidableEq, Repr

/-- Modelled from the spec: the rules of the validator library behind the tags
`required,alphanum` of `PurgeArg` (the library is not part of the repository):
the identifier must be non-empty and alphanumeric, that is, match
`^[a-zA-Z0-9]+$`.  `true` when `validate.Struct` returns no error. -/
def validateStruct (arg : PurgeArg) : Bool :=
  !arg.PurgeId.data.isEmpty && arg.PurgeId.data.all Char.isAlphanum

/-- Go's `strings.TrimPrefix s p`: `s` without the leading `p` when it starts
with `p`, and `s` itself otherwise. -/
def TrimPrefix (s p : String) : String :=
  if p.data.isPrefixOf s.data then String.mk (s.data.drop p.data.length) else s

/-- What the handler is given: method and URL path of the request, whether
reading the body fails, whether writing the response body fails, and whether
`ctx.Done()` is ready when the `select` is reached. -/
structure Request where
  Method : String
  Path : String
  bodyErr : Bool
  writeErr : Bool
  ctxDone : Bool
  deriving DecidableEq, Repr

/-- The visible effects of the handler, in order. -/
inductive Effect where
  | WriteHeader (status : Nat)
  | Error (status : Nat)
  | send (id : String)
  | exit
  deriving DecidableEq, Repr

/-- `HandlePurge(w, req)` (lines 176-214). -/
def HandlePurge (req : Request) : List Effect :=
  if req.Method = "POST" then
    if req.bodyErr then [.exit]
    else
      let id := TrimPrefix req.Path "/webhook/purge/"
      let arg : PurgeArg := ⟨id⟩
      if !validateStruct arg then [.Error 400]
      else if req.ctxDone then [.Error 500]
      else [.send id, .WriteHeader 204]
  else
    if req.writeErr then [.WriteHeader 501, .exit] else [.WriteHeader 501]

/-! ## Notions used in the statements -/

/-- The string the scan loop reads from a delivery, when there is one. -/
def fieldString (lib : Codec) (jsonpathExpr : String) (d : Delivery) : Option String :=
  match lib.Unmarshal d.Body with
  | .error _ => none
  | .ok field =>
    match lib.Read field jsonpathExpr with
    | .error _ => none
    | .ok unmarshaled => unmarshaled.asString

/-- All three set-up calls of `Purge` succeed on this connection. -/
def Connection.ready (c : Connection) : Bool :=
  !c.channelErr && !c.queueDeclareErr && !c.consumeErr


/-! ## A small codec and sample deliveries, for concrete runs -/

/-- A decoder for one-byte payloads: the empty payload does not decode, byte
`0` decodes to an empty object, byte `1` to an object whose `id` is the number
`1`, any other single byte to an object whose `id` is that character; longer
payloads do not decode. -/
def sampleUnmarshal : List UInt8 → Except String Value
  | [b] =>
    if b = 0 then .ok (.object [])
    else if b = 1 then .ok (.object [("id", .float64 4607182418800017408)])
    else .ok (.object [("id", .string (String.singleton (Char.ofNat b.toNat)))])
  | _ => .error "invalid character"

/-- A reader for the path `$.id` on objects. -/
def sampleRead (v : Value) (path : String) : Except String Value :=
  match v with
  | .object kvs =>
    if path = "$.id" then
      match kvs.lookup "id" with
      | some x => .ok x
      | none => .error "child not found"
    else .error "unsupported path"
  | _ => .error "not an object"

/-- The sample codec. -/
def sampleCodec : Codec := ⟨sampleUnmarshal, sampleRead⟩

/-- A connection whose set-up calls all succeed. -/
def okConn : Connection := ⟨false, false, false⟩

/-- A delivery with the given tag and one-byte payload whose `Ack` and `Nack`
succeed. -/
def mkDelivery (tag : Nat) (b : UInt8) : Delivery := ⟨tag, [b], false, false⟩

/-! ## Lemmas on the loop, the worker and the handler -/

theorem prepend_trace (t : List Action) (r : Result) : (r.prepend t).trace = t ++ r.trace := rfl
theorem prepend_outcome (t : List Action) (r : Result) : (r.prepend t).outcome = r.outcome := rfl
theorem prepend_rest (t : List Action) (r : Result) : (r.prepend t).rest = r.rest := rfl
theorem prepend_dones (t : List Action) (r : Result) : (r.prepend t).dones = r.dones := rfl
theorem prepend_prepend (s t : List Action) (r : Result) :
    (r.prepend t).prepend s = r.prepend (s ++ t) := by
  simp [Result.prepend]
theorem prepend_nil (r : Result) : r.prepend [] = r := by
  simp [Result.prepend]

theorem scan_msgs_string (lib : Codec) (e val : String) (dones : List String) (d : Delivery)
    (rest : List Event) (m : String) (h : fieldString lib e d = some m) :
    scan lib e val dones (.msgs d :: rest) =
      if m ∈ dones then ⟨.done, [], rest, dones⟩
      else if m = val then
        if d.ackErr then ⟨.fatal, [.Ack d.DeliveryTag false], rest, m :: dones⟩
        else (scan lib e val (m :: dones) rest).prepend [.Ack d.DeliveryTag false]
      else
        if d.nackErr then ⟨.fatal, [.Nack d.DeliveryTag false true], rest, m :: dones⟩
        else (scan lib e val (m :: dones) rest).prepend [.Nack d.DeliveryTag false true] := by
  unfold fieldString at h
  rw [scan]
  split at h
  · exact absurd h (by simp)
  · rename_i field hf
    split at h
    · exact absurd h (by simp)
    · rename_i v hv
      simp only [hf, hv, h]

theorem scan_append (lib : Codec) (e val : String) (pre evs : List Event) :
    ∀ dones : List String, (scan lib e val dones pre).outcome = .awaiting →
      scan lib e val dones (pre ++ evs) =
        (scan lib e val (scan lib e val dones pre).dones evs).prepend
          (scan lib e val dones pre).trace := by
  induction pre with
  | nil => intro dones _; simp [scan, Result.prepend]
  | cons ev pre ih =>
    intro dones h
    cases ev with
    | timerC => simp [scan] at h
    | msgs d =>
      simp only [List.cons_append, scan] at h ⊢
      cases hU : lib.Unmarshal d.Body with
      | error _ =>
        simp only [hU] at h
        split at h <;> simp at h
      | ok field =>
        simp only [hU] at h ⊢
        cases hR : lib.Read field e with
        | error _ =>
          simp only [hR] at h
          split at h <;> simp at h
        | ok v =>
          simp only [hR] at h ⊢
          cases hS : v.asString with
          | none => simp [hS] at h
          | some m =>
            simp only [hS] at h ⊢
            by_cases hm : m ∈ dones
            · simp [hm] at h
            · simp only [hm, if_false] at h ⊢
              by_cases hv : m = val
              · simp only [hv, if_true] at h ⊢
                cases ha : d.ackErr with
                | true => simp [ha] at h
                | false =>
                  simp only [ha] at h ⊢
                  simp only [Bool.false_eq_true, if_false, prepend_outcome] at h ⊢
                  rw [show pre.append evs = pre ++ evs from rfl, ih _ h]
                  simp [Result.prepend]
              · simp only [hv, if_false] at h ⊢
                cases ha : d.nackErr with
                | true => simp [ha] at h
                | false =>
                  simp only [ha] at h ⊢
                  simp only [Bool.false_eq_true, if_false, prepend_outcome] at h ⊢
                  rw [show pre.append evs = pre ++ evs from rfl, ih _ h]
                  simp [Result.prepend]

theorem Purge_of_ready (lib : Codec) (e : String) (conn : Connection) (q val : String)
    (events : List Event) (h : conn.ready = true) :
    Purge lib e conn q val events = scan lib e val [] events := by
  simp only [Connection.ready, Bool.and_eq_true, Bool.not_eq_true'] at h
  obtain ⟨⟨h1, h2⟩, h3⟩ := h
  simp [Purge, h1, h2, h3]

theorem ready_of_Purge_awaiting (lib : Codec) (e : String) (conn : Connection) (q val : String)
    (events : List Event) (h : (Purge lib e conn q val events).outcome = .awaiting) :
    conn.ready = true := by
  unfold Purge at h
  unfold Connection.ready
  cases h1 : conn.channelErr <;> cases h2 : conn.queueDeclareErr <;>
    cases h3 : conn.consumeErr <;> simp [h1, h2, h3] at h ⊢

theorem Purge_append (lib : Codec) (e : String) (conn : Connection) (q val : String)
    (pre evs : List Event) (h : (Purge lib e conn q val pre).outcome = .awaiting) :
    Purge lib e conn q val (pre ++ evs) =
      (scan lib e val (Purge lib e conn q val pre).dones evs).prepend
        (Purge lib e conn q val pre).trace := by
  have hr := ready_of_Purge_awaiting lib e conn q val pre h
  rw [Purge_of_ready _ _ _ _ _ _ hr] at h ⊢
  rw [Purge_of_ready _ _ _ _ _ _ hr]
  exact scan_append lib e val pre evs [] h

theorem scan_no_ack_of_seen (lib : Codec) (e val : String) (evs : List Event) :
    ∀ dones : List String, val ∈ dones →
      (scan lib e val dones evs).trace.countP Action.isAck = 0 := by
  induction evs with
  | nil => intro dones _; simp [scan]
  | cons ev evs ih =>
    intro dones hv
    cases ev with
    | timerC => simp [scan]
    | msgs d =>
      simp only [scan]
      cases hU : lib.Unmarshal d.Body with
      | error _ => simp only []; split <;> simp [Action.isAck]
      | ok field =>
        simp only []
        cases hR : lib.Read field e with
        | error _ => simp only []; split <;> simp [Action.isAck]
        | ok v =>
          simp only []
          cases hS : v.asString with
          | none => simp
          | some m =>
            simp only []
            by_cases hm : m ∈ dones
            · simp [hm]
            · have hne : ¬ m = val := fun h => hm (h ▸ hv)
              simp only [hm, hne, if_false]
              split
              · simp [Action.isAck]
              · rw [prepend_trace]
                simp [Action.isAck, ih (m :: dones) (List.mem_cons_of_mem _ hv)]

theorem scan_ack_le_one (lib : Codec) (e val : String) (evs : List Event) :
    ∀ dones : List String, (scan lib e val dones evs).trace.countP Action.isAck ≤ 1 := by
  induction evs with
  | nil => intro dones; simp [scan]
  | cons ev evs ih =>
    intro dones
    cases ev with
    | timerC => simp [scan]
    | msgs d =>
      simp only [scan]
      cases hU : lib.Unmarshal d.Body with
      | error _ => simp only []; split <;> simp [Action.isAck]
      | ok field =>
        simp only []
        cases hR : lib.Read field e with
        | error _ => simp only []; split <;> simp [Action.isAck]
        | ok v =>
          simp only []
          cases hS : v.asString with
          | none => simp
          | some m =>
            simp only []
            by_cases hm : m ∈ dones
            · simp [hm]
            · simp only [hm, if_false]
              by_cases hv : m = val
              · simp only [hv, if_true]
                split
                · simp [Action.isAck]
                · rw [prepend_trace]
                  simp [Action.isAck, scan_no_ack_of_seen lib e val evs (val :: dones) (List.mem_cons_self _ _)]
              · simp only [hv, if_false]
                split
                · simp [Action.isAck]
                · rw [prepend_trace]
                  simpa [Action.isAck] using ih (m :: dones)

theorem scan_bad_payload (lib : Codec) (e val : String) (dones : List String) (d : Delivery)
    (rest : List Event)
    (hbad : (∃ err, lib.Unmarshal d.Body = .error err) ∨
      (∃ field err, lib.Unmarshal d.Body = .ok field ∧ lib.Read field e = .error err))
    (hnack : d.nackErr = false) :
    scan lib e val dones (.msgs d :: rest) =
      ⟨.aborted, [.Nack d.DeliveryTag false true], rest, dones⟩ := by
  rcases hbad with ⟨err, h⟩ | ⟨field, err, h1, h2⟩
  · simp [scan, h, hnack]
  · simp [scan, h1, h2, hnack]

theorem scan_non_string (lib : Codec) (e val : String) (dones : List String) (d : Delivery)
    (rest : List Event)
    (h : ∃ field v, lib.Unmarshal d.Body = .ok field ∧ lib.Read field e = .ok v ∧
      v.asString = none) :
    scan lib e val dones (.msgs d :: rest) = ⟨.panicked, [], rest, dones⟩ := by
  obtain ⟨field, v, h1, h2, h3⟩ := h
  simp [scan, h1, h2, h3]

theorem scan_no_panic (lib : Codec) (e val : String) (evs : List Event)
    (h : ∀ d, Event.msgs d ∈ evs → ∀ field v, lib.Unmarshal d.Body = .ok field →
      lib.Read field e = .ok v → v.asString ≠ none) :
    ∀ dones : List String, (scan lib e val dones evs).outcome ≠ .panicked := by
  induction evs with
  | nil => intro dones; simp [scan]
  | cons ev evs ih =>
    have ih := ih (fun d hd => h d (List.mem_cons_of_mem _ hd))
    intro dones
    cases ev with
    | timerC => simp [scan]
    | msgs d =>
      have hd := h d (List.mem_cons_self _ _)
      simp only [scan]
      cases hU : lib.Unmarshal d.Body with
      | error _ => simp only []; split <;> simp
      | ok field =>
        simp only []
        cases hR : lib.Read field e with
        | error _ => simp only []; split <;> simp
        | ok v =>
          simp only []
          cases hS : v.asString with
          | none => exact absurd hS (hd field v hU hR)
          | some m =>
            simp only []
            split
            · simp
            · split
              · split
                · simp
                · rw [prepend_outcome]; exact ih _
              · split
                · simp
                · rw [prepend_outcome]; exact ih _

theorem worker_of_returned (lib : Codec) (e q id : String) (conn : Connection)
    (events : List Event) (later : List WorkerEvent)
    (h : (Purge lib e conn q id events).outcome = .done ∨
      (Purge lib e conn q id events).outcome = .timeout ∨
      (Purge lib e conn q id events).outcome = .aborted) :
    worker lib e q (.forever id conn events :: later) =
      ⟨(worker lib e q later).status,
        (id, Purge lib e conn q id events) :: (worker lib e q later).scans⟩ := by
  rw [worker]
  rcases h with h | h | h <;> simp [h]

theorem worker_scans_head (lib : Codec) (e q id : String) (conn : Connection)
    (events : List Event) (later : List WorkerEvent) :
    (worker lib e q (.forever id conn events :: later)).scans.take 1 =
      [(id, Purge lib e conn q id events)] := by
  rw [worker]
  cases h : (Purge lib e conn q id events).outcome <;> simp [h]

theorem scan_distinct (lib : Codec) (e val : String) (evs : List Event) :
    ∀ (ds : List Delivery) (dones : List String),
      (∀ d ∈ ds, (fieldString lib e d).isSome = true) →
      (ds.map (fieldString lib e)).Nodup →
      (∀ d ∈ ds, ∀ m, fieldString lib e d = some m → m ∉ dones) →
      (∀ d ∈ ds, (fieldString lib e d = some val → d.ackErr = false) ∧
        (fieldString lib e d ≠ some val → d.nackErr = false)) →
      scan lib e val dones (ds.map .msgs ++ evs) =
        (scan lib e val ((ds.filterMap (fieldString lib e)).reverse ++ dones) evs).prepend
          (ds.map (fun d => if fieldString lib e d = some val then Action.Ack d.DeliveryTag false
            else Action.Nack d.DeliveryTag false true)) := by
  intro ds
  induction ds with
  | nil => intro dones _ _ _ _; simp [Result.prepend]
  | cons d ds ih =>
    intro dones hstr hnd hfresh hok
    obtain ⟨m, hm⟩ := Option.isSome_iff_exists.mp (hstr d (List.mem_cons_self _ _))
    have hmd : m ∉ dones := hfresh d (List.mem_cons_self _ _) m hm
    rw [List.map_cons, List.nodup_cons] at hnd
    have ih' := ih (m :: dones) (fun x hx => hstr x (List.mem_cons_of_mem _ hx)) hnd.2
      (by
        intro x hx mx hmx hmem
        rcases List.mem_cons.mp hmem with h | h
        · apply hnd.1
          rw [hm, ← h, ← hmx]
          exact List.mem_map_of_mem _ hx
        · exact hfresh x (List.mem_cons_of_mem _ hx) mx hmx h)
      (fun x hx => hok x (List.mem_cons_of_mem _ hx))
    have hokd := hok d (List.mem_cons_self _ _)
    rw [List.map_cons, List.cons_append, scan_msgs_string lib e val dones d _ m hm]
    by_cases hv : m = val
    · subst hv
      have ha : d.ackErr = false := hokd.1 hm
      simp only [hmd, if_false, if_true, ha, Bool.false_eq_true]
      rw [ih', prepend_prepend]
      simp [hm, List.filterMap_cons]
    · have hne : fieldString lib e d ≠ some val := by
        rw [hm]; intro h; exact hv (Option.some.inj h)
      have ha : d.nackErr = false := hokd.2 hne
      simp only [hmd, if_false, hv, ha, Bool.false_eq_true]
      rw [ih', prepend_prepend]
      simp [hm, hv, List.filterMap_cons]

theorem countP_eq_one_of_nodup {α : Type} (f : α → Option String) (v : String) :
    ∀ l : List α, (l.map f).Nodup → some v ∈ l.map f →
      l.countP (fun d => decide (f d = some v)) = 1 := by
  intro l
  induction l with
  | nil => intro _ h; simp at h
  | cons d l ih =>
    intro hnd hmem
    rw [List.map_cons, List.nodup_cons] at hnd
    by_cases hd : f d = some v
    · have hz : l.countP (fun d => decide (f d = some v)) = 0 := by
        rw [List.countP_eq_zero]
        intro x hx hfx
        apply hnd.1
        rw [hd, ← of_decide_eq_true hfx]
        exact List.mem_map_of_mem _ hx
      rw [List.countP_cons_of_pos _ _ (by simpa using hd), hz]
    · rw [List.countP_cons_of_neg _ _ (by simpa using hd)]
      apply ih hnd.2
      rw [List.map_cons, List.mem_cons] at hmem
      rcases hmem with h | h
      · exact absurd h.symm hd
      · exact h

theorem scan_bounded (lib : Codec) (e val : String) (vals : List String) :
    ∀ (ds : List Delivery) (dones : List String),
      dones.Nodup → dones ⊆ vals →
      (∀ d ∈ ds, ∃ m ∈ vals, fieldString lib e d = some m) →
      vals.length + 1 ≤ dones.length + ds.length →
      ∃ n, n + dones.length ≤ vals.length + 1 ∧
        (scan lib e val dones (ds.map .msgs)).rest = (ds.drop n).map .msgs ∧
        ((scan lib e val dones (ds.map .msgs)).outcome = .done ∨
          (scan lib e val dones (ds.map .msgs)).outcome = .fatal) ∧
        ((∀ d ∈ ds, d.ackErr = false ∧ d.nackErr = false) →
          (scan lib e val dones (ds.map .msgs)).outcome = .done) := by
  intro ds
  induction ds with
  | nil =>
    intro dones hnd hsub _ hlen
    have := (List.subperm_of_subset hnd hsub).length_le
    simp at hlen
    omega
  | cons d ds ih =>
    intro dones hnd hsub hstr hlen
    have hle := (List.subperm_of_subset hnd hsub).length_le
    obtain ⟨m, hmv, hm⟩ := hstr d (List.mem_cons_self _ _)
    rw [List.map_cons, scan_msgs_string lib e val dones d _ m hm]
    by_cases hmd : m ∈ dones
    · refine ⟨1, by omega, ?_⟩
      simp [hmd]
    · have hnd' : (m :: dones).Nodup := List.nodup_cons.mpr ⟨hmd, hnd⟩
      have hsub' : m :: dones ⊆ vals := List.cons_subset.mpr ⟨hmv, hsub⟩
      have hlen' : vals.length + 1 ≤ (m :: dones).length + ds.length := by
        simp only [List.length_cons] at hlen ⊢
        omega
      obtain ⟨n, hn, hrest, hout, hdone⟩ :=
        ih (m :: dones) hnd' hsub' (fun x hx => hstr x (List.mem_cons_of_mem _ hx)) hlen'
      simp only [List.length_cons] at hn
      simp only [hmd, if_false]
      by_cases hv : m = val
      · simp only [hv, if_true]
        cases ha : d.ackErr with
        | true =>
          refine ⟨1, by omega, ?_⟩
          simp [ha]
        | false =>
          refine ⟨n + 1, by omega, ?_⟩
          simp only [Bool.false_eq_true, if_false, prepend_rest, prepend_outcome,
            List.drop_succ_cons]
          rw [hv] at hrest hout hdone
          exact ⟨hrest, hout, fun h => hdone (fun x hx => h x (List.mem_cons_of_mem _ hx))⟩
      · simp only [hv, if_false]
        cases ha : d.nackErr with
        | true =>
          refine ⟨1, by omega, ?_⟩
          simp [ha]
        | false =>
          refine ⟨n + 1, by omega, ?_⟩
          simp only [Bool.false_eq_true, if_false, prepend_rest, prepend_outcome,
            List.drop_succ_cons]
          exact ⟨hrest, hout, fun h => hdone (fun x hx => h x (List.mem_cons_of_mem _ hx))⟩

theorem TrimPrefix_append (p id : String) : TrimPrefix (p ++ id) p = id := by
  unfold TrimPrefix
  have h : p.data.isPrefixOf (p ++ id).data = true := by
    rw [String.data_append, List.isPrefixOf_iff_prefix]
    exact List.prefix_append _ _
  rw [if_pos h, String.data_append, List.drop_left]

theorem validateStruct_iff (id : String) :
    validateStruct ⟨id⟩ = true ↔ id ≠ "" ∧ ∀ c ∈ id.data, c.isAlphanum = true := by
  unfold validateStruct
  simp only [Bool.and_eq_true, Bool.not_eq_true', List.all_eq_true]
  constructor
  · rintro ⟨h1, h2⟩
    refine ⟨?_, h2⟩
    intro h
    rw [h] at h1
    simp at h1
  · rintro ⟨h1, h2⟩
    refine ⟨?_, h2⟩
    cases hd : id.data with
    | nil => exact absurd (String.ext hd) h1
    | cons _ _ => rfl

/-! ## The claims -/

/-- C1, as stated, fails.  Target `t`, events: a delivery (tag 1) whose field is
`t`, a delivery (tag 2) whose field is `b`, then the timer.  The first delivery
is a fresh match and is acknowledged, but the scan does not end there: it
receives the second delivery, calls `Nack` on it and only ends at the timer, so
the calls are not just the `Ack` and the two later events are not left
unconsumed. -/
theorem Purge_match_does_not_end_scan :
    fieldString sampleCodec "$.id" (mkDelivery 1 116) = some "t" ∧
      Purge sampleCodec "$.id" okConn "default" "t"
          [.msgs (mkDelivery 1 116), .msgs (mkDelivery 2 98), .timerC] =
        ⟨.timeout, [.Ack 1 false, .Nack 2 false true], [], ["b", "t"]⟩ ∧
      ¬ ((Purge sampleCodec "$.id" okConn "default" "t"
            [.msgs (mkDelivery 1 116), .msgs (mkDelivery 2 98), .timerC]).trace =
          [.Ack 1 false] ∧
        (Purge sampleCodec "$.id" okConn "default" "t"
            [.msgs (mkDelivery 1 116), .msgs (mkDelivery 2 98), .timerC]).rest =
          [.msgs (mkDelivery 2 98), .timerC]) := by
  decide

/-- C1, amended.  After any still running run of the scan on `pre`, a delivery
whose field is a string equal to the target and not seen earlier in this scan
is acknowledged (`Ack` with `multiple = false`), and no `Ack` is made on
anything delivered after it.  The scan does not end at the match: unless the
`Ack` call itself reports an error (`failOnError` then ends the process), the
whole scan is the calls made so far, the `Ack`, and then the loop run on the
later events with the target recorded as seen. -/
theorem Purge_match_acks_and_scans_on (lib : Codec) (jsonpathExpr : String) (conn : Connection)
    (queueName val : String) (pre post : List Event) (d : Delivery)
    (hpre : (Purge lib jsonpathExpr conn queueName val pre).outcome = .awaiting)
    (hd : fieldString lib jsonpathExpr d = some val)
    (hnew : val ∉ (Purge lib jsonpathExpr conn queueName val pre).dones) :
    Purge lib jsonpathExpr conn queueName val (pre ++ .msgs d :: post) =
        (if d.ackErr then
          ⟨.fatal,
            (Purge lib jsonpathExpr conn queueName val pre).trace ++ [.Ack d.DeliveryTag false],
            post, val :: (Purge lib jsonpathExpr conn queueName val pre).dones⟩
        else
          (scan lib jsonpathExpr val
              (val :: (Purge lib jsonpathExpr conn queueName val pre).dones) post).prepend
            ((Purge lib jsonpathExpr conn queueName val pre).trace ++
              [.Ack d.DeliveryTag false])) ∧
      (scan lib jsonpathExpr val (val :: (Purge lib jsonpathExpr conn queueName val pre).dones)
        post).trace.countP Action.isAck = 0 ∧
      ∃ tail : List Action,
        (Purge lib jsonpathExpr conn queueName val (pre ++ .msgs d :: post)).trace =
            (Purge lib jsonpathExpr conn queueName val pre).trace ++
              .Ack d.DeliveryTag false :: tail ∧
          tail.countP Action.isAck = 0 := by
  have hcont := scan_no_ack_of_seen lib jsonpathExpr val post
    (val :: (Purge lib jsonpathExpr conn queueName val pre).dones) (List.mem_cons_self _ _)
  have h1 : Purge lib jsonpathExpr conn queueName val (pre ++ .msgs d :: post) =
      (if d.ackErr then
        ⟨.fatal,
          (Purge lib jsonpathExpr conn queueName val pre).trace ++ [.Ack d.DeliveryTag false],
          post, val :: (Purge lib jsonpathExpr conn queueName val pre).dones⟩
      else
        (scan lib jsonpathExpr val
            (val :: (Purge lib jsonpathExpr conn queueName val pre).dones) post).prepend
          ((Purge lib jsonpathExpr conn queueName val pre).trace ++
            [.Ack d.DeliveryTag false])) := by
    rw [Purge_append lib jsonpathExpr conn queueName val pre _ hpre,
      scan_msgs_string lib jsonpathExpr val _ d post val hd]
    cases ha : d.ackErr <;> simp [hnew, prepend_prepend, Result.prepend]
  refine ⟨h1, hcont, ?_⟩
  rw [h1]
  cases ha : d.ackErr
  · refine ⟨(scan lib jsonpathExpr val
      (val :: (Purge lib jsonpathExpr conn queueName val pre).dones) post).trace, ?_, hcont⟩
    simp [Result.prepend]
  · exact ⟨[], by simp, by simp⟩

/-- C1, on a concrete run with the sample codec: after the match (tag 2) the
scan receives two more deliveries and returns at the second. -/
theorem Purge_match_acks_and_scans_on_witness :
    Purge sampleCodec "$.id" okConn "default" "t"
        ([.msgs (mkDelivery 1 97)] ++ .msgs (mkDelivery 2 116) ::
          [.msgs (mkDelivery 3 98), .msgs (mkDelivery 4 116), .msgs (mkDelivery 5 99)]) =
      ⟨.done, [.Nack 1 false true, .Ack 2 false, .Nack 3 false true],
        [.msgs (mkDelivery 5 99)], ["b", "t", "a"]⟩ :=
  (Purge_match_acks_and_scans_on sampleCodec "$.id" okConn "default" "t"
    [.msgs (mkDelivery 1 97)]
    [.msgs (mkDelivery 3 98), .msgs (mkDelivery 4 116), .msgs (mkDelivery 5 99)]
    (mkDelivery 2 116) (by decide) (by decide) (by decide)).1.trans (by decide)

/-- C2.  For every target and every list of events (deliveries with arbitrary
payloads and acknowledger answers, timer expiries, in any order and with any
repetitions), whatever the codec and the connection answer, one call of `Purge`
makes at most one `Ack` call. -/
theorem Purge_ack_at_most_once (lib : Codec) (jsonpathExpr : String) (conn : Connection)
    (queueName val : String) (events : List Event) :
    (Purge lib jsonpathExpr conn queueName val events).trace.countP Action.isAck ≤ 1 := by
  unfold Purge
  split
  · simp
  · split
    · simp
    · split
      · simp
      · exact scan_ack_le_one lib jsonpathExpr val events []

/-- C3.  Deliveries whose fields are pairwise distinct strings, one of them the
target, followed by the timer: when the set-up calls and the `Ack`/`Nack` calls
report no error, `Purge` ends at the timer having called, in delivery order,
`Ack` on the delivery carrying the target and `Nack` with requeue on every
other delivery, those before the target and those after it alike; exactly one
call is an `Ack`. -/
theorem Purge_distinct_values_one_target (lib : Codec) (jsonpathExpr : String)
    (conn : Connection) (queueName val : String) (ds : List Delivery) (post : List Event)
    (hready : conn.ready = true)
    (hstr : ∀ d ∈ ds, (fieldString lib jsonpathExpr d).isSome = true)
    (hdistinct : (ds.map (fieldString lib jsonpathExpr)).Nodup)
    (htarget : some val ∈ ds.map (fieldString lib jsonpathExpr))
    (hok : ∀ d ∈ ds, d.ackErr = false ∧ d.nackErr = false) :
    Purge lib jsonpathExpr conn queueName val (ds.map .msgs ++ .timerC :: post) =
        ⟨.timeout,
          ds.map (fun d => if fieldString lib jsonpathExpr d = some val
            then Action.Ack d.DeliveryTag false else Action.Nack d.DeliveryTag false true),
          post, (ds.filterMap (fieldString lib jsonpathExpr)).reverse⟩ ∧
      (Purge lib jsonpathExpr conn queueName val
        (ds.map .msgs ++ .timerC :: post)).trace.countP Action.isAck = 1 := by
  have h1 : Purge lib jsonpathExpr conn queueName val (ds.map .msgs ++ .timerC :: post) =
      ⟨.timeout,
        ds.map (fun d => if fieldString lib jsonpathExpr d = some val
          then Action.Ack d.DeliveryTag false else Action.Nack d.DeliveryTag false true),
        post, (ds.filterMap (fieldString lib jsonpathExpr)).reverse⟩ := by
    rw [Purge_of_ready _ _ _ _ _ _ hready,
      scan_distinct lib jsonpathExpr val _ ds [] hstr hdistinct (fun _ _ _ _ => by simp)
        (fun d hd => ⟨fun _ => (hok d hd).1, fun _ => (hok d hd).2⟩)]
    simp [scan, Result.prepend]
  refine ⟨h1, ?_⟩
  rw [h1]
  simp only [List.countP_map]
  rw [← countP_eq_one_of_nodup (fieldString lib jsonpathExpr) val ds hdistinct htarget]
  apply List.countP_congr
  intro d _
  by_cases h : fieldString lib jsonpathExpr d = some val <;> simp [h, Action.isAck]

/-- C3, on a concrete run with the sample codec. -/
theorem Purge_distinct_values_one_target_witness :
    Purge sampleCodec "$.id" okConn "default" "t"
        ([mkDelivery 1 97, mkDelivery 2 98, mkDelivery 3 116, mkDelivery 4 99].map .msgs ++
          .timerC :: []) =
      ⟨.timeout, [.Nack 1 false true, .Nack 2 false true, .Ack 3 false, .Nack 4 false true],
        [], ["c", "t", "b", "a"]⟩ :=
  (Purge_distinct_values_one_target sampleCodec "$.id" okConn "default" "t"
    [mkDelivery 1 97, mkDelivery 2 98, mkDelivery 3 116, mkDelivery 4 99] []
    (by decide) (by decide) (by decide) (by decide) (by decide)).1.trans (by decide)

/-- C4.  Deliveries `pre` whose fields are pairwise distinct strings, none of
them the target, followed by a delivery `d` whose field repeats one of them:
when the set-up calls and the `Nack` calls on `pre` report no error, `Purge`
returns at `d` (the "Done" exit).  Its calls are the `Nack`s with requeue of
`pre` and nothing else: no `Ack` at all, neither `Ack` nor `Nack` on `d`, and
every event after `d` is left unconsumed. -/
theorem Purge_repeated_value_ends_scan (lib : Codec) (jsonpathExpr : String)
    (conn : Connection) (queueName val : String) (pre : List Delivery) (d : Delivery)
    (post : List Event)
    (hready : conn.ready = true)
    (hstr : ∀ x ∈ pre, (fieldString lib jsonpathExpr x).isSome = true)
    (hdistinct : (pre.map (fieldString lib jsonpathExpr)).Nodup)
    (hnotarget : some val ∉ pre.map (fieldString lib jsonpathExpr))
    (hrepeat : fieldString lib jsonpathExpr d ∈ pre.map (fieldString lib jsonpathExpr))
    (hok : ∀ x ∈ pre, x.nackErr = false) :
    Purge lib jsonpathExpr conn queueName val (pre.map .msgs ++ .msgs d :: post) =
        ⟨.done, pre.map (fun x => Action.Nack x.DeliveryTag false true), post,
          (pre.filterMap (fieldString lib jsonpathExpr)).reverse⟩ ∧
      (Purge lib jsonpathExpr conn queueName val
        (pre.map .msgs ++ .msgs d :: post)).trace.countP Action.isAck = 0 := by
  have hne : ∀ x ∈ pre, fieldString lib jsonpathExpr x ≠ some val := fun x hx h =>
    hnotarget (h ▸ List.mem_map_of_mem _ hx)
  obtain ⟨y, hy, hyd⟩ := List.mem_map.mp hrepeat
  obtain ⟨m, hm⟩ := Option.isSome_iff_exists.mp (hstr y hy)
  have hdm : fieldString lib jsonpathExpr d = some m := by rw [← hyd, hm]
  have hmem : m ∈ (pre.filterMap (fieldString lib jsonpathExpr)).reverse ++ [] := by
    simp only [List.append_nil, List.mem_reverse, List.mem_filterMap]
    exact ⟨y, hy, hm⟩
  have h1 : Purge lib jsonpathExpr conn queueName val (pre.map .msgs ++ .msgs d :: post) =
      ⟨.done, pre.map (fun x => Action.Nack x.DeliveryTag false true), post,
        (pre.filterMap (fieldString lib jsonpathExpr)).reverse⟩ := by
    rw [Purge_of_ready _ _ _ _ _ _ hready,
      scan_distinct lib jsonpathExpr val _ pre [] hstr hdistinct (fun _ _ _ _ => by simp)
        (fun x hx => ⟨fun h => absurd h (hne x hx), fun _ => hok x hx⟩),
      scan_msgs_string lib jsonpathExpr val _ d post m hdm, if_pos hmem]
    simp only [Result.prepend, List.append_nil, Result.mk.injEq, true_and, and_true]
    apply List.map_congr_left
    intro x hx
    simp [hne x hx]
  refine ⟨h1, ?_⟩
  rw [h1]
  simp [List.countP_map, List.countP_eq_zero, Action.isAck]

/-- C4, on a concrete run with the sample codec. -/
theorem Purge_repeated_value_ends_scan_witness :
    Purge sampleCodec "$.id" okConn "default" "t"
        ([mkDelivery 1 97, mkDelivery 2 98].map .msgs ++ .msgs (mkDelivery 3 97) ::
          [.msgs (mkDelivery 4 116), .timerC]) =
      ⟨.done, [.Nack 1 false true, .Nack 2 false true], [.msgs (mkDelivery 4 116), .timerC],
        ["b", "a"]⟩ :=
  (Purge_repeated_value_ends_scan sampleCodec "$.id" okConn "default" "t"
    [mkDelivery 1 97, mkDelivery 2 98] (mkDelivery 3 97) [.msgs (mkDelivery 4 116), .timerC]
    (by decide) (by decide) (by decide) (by decide) (by decide) (by decide)).1.trans (by decide)

/-- C5, as stated, fails.  Target `t`; the only delivery (tag 2) has a payload
that does not decode, and its `Nack` call reports an error.  `Purge` calls
`Nack` with requeue on it, but `failOnError` then ends the process: `Purge`
does not return to the worker, and the id `u` received next on `forever` is
never scanned. -/
theorem Purge_bad_payload_nack_error_exits :
    (∃ err, sampleCodec.Unmarshal (Delivery.mk 2 [123, 34] false true).Body = .error err) ∧
      Purge sampleCodec "$.id" okConn "default" "t" [.msgs ⟨2, [123, 34], false, true⟩] =
        ⟨.fatal, [.Nack 2 false true], [], []⟩ ∧
      worker sampleCodec "$.id" "default"
          [.forever "t" okConn [.msgs ⟨2, [123, 34], false, true⟩],
            .forever "u" okConn [.msgs (mkDelivery 4 117), .timerC]] =
        ⟨.exited, [("t", ⟨.fatal, [.Nack 2 false true], [], []⟩)]⟩ :=
  ⟨⟨_, rfl⟩, by decide, by decide⟩

/-- C5, amended.  After any still running run of the scan on `pre`, a delivery
`d` whose payload does not decode, or decodes but has no value at the JSON
path, and whose `Nack` call reports no error, is negative-acknowledged with
requeue and the scan is left by `break L`: nothing after `d` is consumed,
acknowledged or requeued, and `Purge` returns to the worker, which goes on to
scan the next id it receives on `forever`. -/
theorem Purge_bad_payload_aborts_scan (lib : Codec) (jsonpathExpr : String)
    (conn conn2 : Connection) (queueName val id2 : String) (pre post events2 : List Event)
    (later : List WorkerEvent) (d : Delivery)
    (hpre : (Purge lib jsonpathExpr conn queueName val pre).outcome = .awaiting)
    (hbad : (∃ err, lib.Unmarshal d.Body = .error err) ∨
      (∃ field err, lib.Unmarshal d.Body = .ok field ∧
        lib.Read field jsonpathExpr = .error err))
    (hnack : d.nackErr = false) :
    Purge lib jsonpathExpr conn queueName val (pre ++ .msgs d :: post) =
        ⟨.aborted,
          (Purge lib jsonpathExpr conn queueName val pre).trace ++
            [.Nack d.DeliveryTag false true],
          post, (Purge lib jsonpathExpr conn queueName val pre).dones⟩ ∧
      (worker lib jsonpathExpr queueName
          (.forever val conn (pre ++ .msgs d :: post) ::
            .forever id2 conn2 events2 :: later)).scans.take 2 =
        [(val, Purge lib jsonpathExpr conn queueName val (pre ++ .msgs d :: post)),
          (id2, Purge lib jsonpathExpr conn2 queueName id2 events2)] := by
  have h1 : Purge lib jsonpathExpr conn queueName val (pre ++ .msgs d :: post) =
      ⟨.aborted,
        (Purge lib jsonpathExpr conn queueName val pre).trace ++
          [.Nack d.DeliveryTag false true],
        post, (Purge lib jsonpathExpr conn queueName val pre).dones⟩ := by
    rw [Purge_append lib jsonpathExpr conn queueName val pre _ hpre,
      scan_bad_payload lib jsonpathExpr val _ d post hbad hnack]
    simp [Result.prepend]
  refine ⟨h1, ?_⟩
  rw [worker_of_returned lib jsonpathExpr queueName val conn _ _
    (Or.inr (Or.inr (by rw [h1])))]
  have h2 := worker_scans_head lib jsonpathExpr queueName id2 conn2 events2 later
  simp only [List.take_succ_cons]
  rw [h2]

/-- C5, on a concrete run with the sample codec. -/
theorem Purge_bad_payload_aborts_scan_witness :
    Purge sampleCodec "$.id" okConn "default" "t"
        ([.msgs (mkDelivery 1 97)] ++ .msgs ⟨2, [123, 34], false, false⟩ ::
          [.msgs (mkDelivery 3 116)]) =
      ⟨.aborted, [.Nack 1 false true, .Nack 2 false true], [.msgs (mkDelivery 3 116)], ["a"]⟩ ∧
    (worker sampleCodec "$.id" "default"
        (.forever "t" okConn ([.msgs (mkDelivery 1 97)] ++ .msgs ⟨2, [123, 34], false, false⟩ ::
            [.msgs (mkDelivery 3 116)]) ::
          .forever "u" okConn [.msgs (mkDelivery 4 117), .timerC] :: [])).scans.take 2 =
      [("t", ⟨.aborted, [.Nack 1 false true, .Nack 2 false true],
          [.msgs (mkDelivery 3 116)], ["a"]⟩),
        ("u", ⟨.timeout, [.Ack 4 false], [], ["u"]⟩)] :=
  (Purge_bad_payload_aborts_scan sampleCodec "$.id" okConn okConn "default" "t" "u"
    [.msgs (mkDelivery 1 97)] [.msgs (mkDelivery 3 116)] [.msgs (mkDelivery 4 117), .timerC] []
    ⟨2, [123, 34], false, false⟩ (by decide) (Or.inl ⟨_, rfl⟩) rfl).imp
      (fun h => h.trans (by decide)) (fun h => h.trans (by decide))

/-- C6.  After any still running run of the scan on `pre` (possibly empty), when
the timer event is taken `Purge` returns with exactly the calls already made
for `pre`; and when the timer is the first event it returns with no call at
all. -/
theorem Purge_timer_expiry (lib : Codec) (jsonpathExpr : String) (conn : Connection)
    (queueName val : String) (pre post : List Event)
    (hpre : (Purge lib jsonpathExpr conn queueName val pre).outcome = .awaiting) :
    Purge lib jsonpathExpr conn queueName val (pre ++ .timerC :: post) =
        ⟨.timeout, (Purge lib jsonpathExpr conn queueName val pre).trace, post,
          (Purge lib jsonpathExpr conn queueName val pre).dones⟩ ∧
      Purge lib jsonpathExpr conn queueName val (.timerC :: post) = ⟨.timeout, [], post, []⟩ := by
  constructor
  · rw [Purge_append lib jsonpathExpr conn queueName val pre _ hpre]
    simp [scan, Result.prepend]
  · rw [Purge_of_ready _ _ _ _ _ _ (ready_of_Purge_awaiting _ _ _ _ _ _ hpre)]
    simp [scan]

/-- C6, on a concrete run with the sample codec. -/
theorem Purge_timer_expiry_witness :
    (Purge sampleCodec "$.id" okConn "default" "t" [.msgs (mkDelivery 1 97)]).outcome
        = .awaiting ∧
      Purge sampleCodec "$.id" okConn "default" "t"
          ([.msgs (mkDelivery 1 97)] ++ .timerC :: [.msgs (mkDelivery 2 116)]) =
        ⟨.timeout, [.Nack 1 false true], [.msgs (mkDelivery 2 116)], ["a"]⟩ ∧
      Purge sampleCodec "$.id" okConn "default" "t" (.timerC :: [.msgs (mkDelivery 2 116)]) =
        ⟨.timeout, [], [.msgs (mkDelivery 2 116)], []⟩ :=
  ⟨by decide,
    Purge_timer_expiry sampleCodec "$.id" okConn "default" "t" [.msgs (mkDelivery 1 97)]
      [.msgs (mkDelivery 2 116)] (by decide)⟩

/-- C7, as stated, fails.  A `POST` to `/webhook/purge/abc123` whose context is
not cancelled but whose body cannot be read: `log.Fatal` ends the process
before the id is validated, so the handler neither answers 204 nor sends the
id on `forever`. -/
theorem HandlePurge_post_body_error_exits :
    HandlePurge ⟨"POST", "/webhook/purge/" ++ "abc123", true, false, false⟩ = [.exit] ∧
      HandlePurge ⟨"POST", "/webhook/purge/" ++ "abc123", true, false, false⟩ ≠
        [.send "abc123", .WriteHeader 204] := by
  decide

/-- C7, amended.  A `POST` to `/webhook/purge/` followed by `id`, whose body is
read without error and whose context is not cancelled: when `id` is non-empty
and made of ASCII letters and digits only, the handler sends exactly `id` on
`forever` once and answers 204; otherwise it answers 400 and sends nothing. -/
theorem HandlePurge_post (req : Request) (id : String)
    (hmethod : req.Method = "POST")
    (hpath : req.Path = "/webhook/purge/" ++ id)
    (hbody : req.bodyErr = false)
    (hctx : req.ctxDone = false) :
    HandlePurge req =
      if id ≠ "" ∧ ∀ c ∈ id.data, c.isAlphanum = true then [.send id, .WriteHeader 204]
      else [.Error 400] := by
  unfold HandlePurge
  simp only [hmethod, if_true, hbody, hpath, TrimPrefix_append, hctx, Bool.false_eq_true,
    if_false]
  by_cases h : id ≠ "" ∧ ∀ c ∈ id.data, c.isAlphanum = true
  · rw [if_pos h]
    have := (validateStruct_iff id).mpr h
    simp [this]
  · rw [if_neg h]
    have : validateStruct ⟨id⟩ = false := by
      rw [← Bool.not_eq_true]
      exact fun hv => h ((validateStruct_iff id).mp hv)
    simp [this]

/-- C7, on three concrete requests: a valid id, an id with a dash, the empty id. -/
theorem HandlePurge_post_witness :
    HandlePurge ⟨"POST", "/webhook/purge/" ++ "abc123", false, false, false⟩ =
        [.send "abc123", .WriteHeader 204] ∧
      HandlePurge ⟨"POST", "/webhook/purge/" ++ "a-b", false, false, false⟩ = [.Error 400] ∧
      HandlePurge ⟨"POST", "/webhook/purge/" ++ "", false, false, false⟩ = [.Error 400] :=
  ⟨(HandlePurge_post ⟨"POST", "/webhook/purge/" ++ "abc123", false, false, false⟩ "abc123"
      rfl rfl rfl rfl).trans (by decide),
    (HandlePurge_post ⟨"POST", "/webhook/purge/" ++ "a-b", false, false, false⟩ "a-b"
      rfl rfl rfl rfl).trans (by decide),
    (HandlePurge_post ⟨"POST", "/webhook/purge/" ++ "", false, false, false⟩ ""
      rfl rfl rfl rfl).trans (by decide)⟩

/-- C9.  Deliveries whose fields are strings taken from a list `vals` of at
most `k` values, at least `k + 1` of them and no timer event: `Purge` has left
the loop after receiving `n ≤ k + 1` of them, whether or not the target is
among the values.  It left through the "Done" return, or through `failOnError`
when a broker call reported an error; with no such error it is the "Done"
return. -/
theorem Purge_consumes_at_most_succ (lib : Codec) (jsonpathExpr : String) (conn : Connection)
    (queueName val : String) (k : Nat) (vals : List String) (ds : List Delivery)
    (hk : vals.length ≤ k)
    (hstr : ∀ d ∈ ds, ∃ m ∈ vals, fieldString lib jsonpathExpr d = some m)
    (hlen : k + 1 ≤ ds.length) :
    ∃ n, n ≤ k + 1 ∧
      (Purge lib jsonpathExpr conn queueName val (ds.map .msgs)).rest = (ds.drop n).map .msgs ∧
      ((Purge lib jsonpathExpr conn queueName val (ds.map .msgs)).outcome = .done ∨
        (Purge lib jsonpathExpr conn queueName val (ds.map .msgs)).outcome = .fatal) ∧
      (conn.ready = true → (∀ d ∈ ds, d.ackErr = false ∧ d.nackErr = false) →
        (Purge lib jsonpathExpr conn queueName val (ds.map .msgs)).outcome = .done) := by
  by_cases hready : conn.ready = true
  · rw [Purge_of_ready _ _ _ _ _ _ hready]
    obtain ⟨n, hn, hrest, hout, hdone⟩ :=
      scan_bounded lib jsonpathExpr val vals ds [] List.nodup_nil (List.nil_subset _) hstr
        (by simp only [List.length_nil]; omega)
    exact ⟨n, by simp only [List.length_nil] at hn; omega, hrest, hout, fun _ h => hdone h⟩
  · refine ⟨0, by omega, ?_, ?_, fun h => absurd h hready⟩
    · unfold Purge
      unfold Connection.ready at hready
      cases h1 : conn.channelErr <;> cases h2 : conn.queueDeclareErr <;>
        cases h3 : conn.consumeErr <;> simp [h1, h2, h3] at hready ⊢
    · right
      unfold Purge
      unfold Connection.ready at hready
      cases h1 : conn.channelErr <;> cases h2 : conn.queueDeclareErr <;>
        cases h3 : conn.consumeErr <;> simp [h1, h2, h3] at hready ⊢

/-- C9, on a concrete run with the sample codec. -/
theorem Purge_consumes_at_most_succ_witness :
    ∃ n, n ≤ 2 + 1 ∧
      (Purge sampleCodec "$.id" okConn "default" "t"
        ([mkDelivery 1 97, mkDelivery 2 116, mkDelivery 1 97, mkDelivery 2 116,
          mkDelivery 1 97].map .msgs)).rest =
        ([mkDelivery 1 97, mkDelivery 2 116, mkDelivery 1 97, mkDelivery 2 116,
          mkDelivery 1 97].drop n).map .msgs :=
  (Purge_consumes_at_most_succ sampleCodec "$.id" okConn "default" "t" 2 ["a", "t"]
    [mkDelivery 1 97, mkDelivery 2 116, mkDelivery 1 97, mkDelivery 2 116, mkDelivery 1 97]
    (by decide) (by decide) (by decide)).imp (fun _ h => ⟨h.1, h.2.1⟩)

/-- C10.  After any still running run of the scan on `pre`, a delivery whose
payload decodes and whose JSON path yields a value that is not a string makes
the type assertion fail: the scan panics with no `Ack` or `Nack` on that
delivery and nothing after it consumed.  Conversely a scan in which every
value read from a delivery is a string never panics. -/
theorem Purge_panics_on_non_string (lib : Codec) (jsonpathExpr : String) (conn : Connection)
    (queueName val : String) (pre post : List Event) (d : Delivery)
    (hpre : (Purge lib jsonpathExpr conn queueName val pre).outcome = .awaiting)
    (hval : ∃ field v, lib.Unmarshal d.Body = .ok field ∧
      lib.Read field jsonpathExpr = .ok v ∧ v.asString = none) :
    Purge lib jsonpathExpr conn queueName val (pre ++ .msgs d :: post) =
        ⟨.panicked, (Purge lib jsonpathExpr conn queueName val pre).trace, post,
          (Purge lib jsonpathExpr conn queueName val pre).dones⟩ ∧
      ∀ events : List Event,
        (∀ x, Event.msgs x ∈ events → ∀ field v, lib.Unmarshal x.Body = .ok field →
          lib.Read field jsonpathExpr = .ok v → v.asString ≠ none) →
        (Purge lib jsonpathExpr conn queueName val events).outcome ≠ .panicked := by
  constructor
  · rw [Purge_append lib jsonpathExpr conn queueName val pre _ hpre,
      scan_non_string lib jsonpathExpr val _ d post hval]
    simp [Result.prepend]
  · intro events h
    unfold Purge
    split
    · simp
    · split
      · simp
      · split
        · simp
        · exact scan_no_panic lib jsonpathExpr val events h []

/-- C10, on a concrete run with the sample codec. -/
theorem Purge_panics_on_non_string_witness :
    Purge sampleCodec "$.id" okConn "default" "t"
        ([.msgs (mkDelivery 1 97)] ++ .msgs (mkDelivery 2 1) :: [.msgs (mkDelivery 3 116)]) =
      ⟨.panicked, [.Nack 1 false true], [.msgs (mkDelivery 3 116)], ["a"]⟩ :=
  (Purge_panics_on_non_string sampleCodec "$.id" okConn "default" "t" [.msgs (mkDelivery 1 97)]
    [.msgs (mkDelivery 3 116)] (mkDelivery 2 1) (by decide)
    ⟨.object [("id", .float64 4607182418800017408)], .float64 4607182418800017408,
      rfl, rfl, rfl⟩).1

end AmqpPurge
